import Mathlib

/-!
Verification of the x86 string-instruction fast-forward engine
(`src/fast_forward.cc`).

The development shallowly embeds the source file:

* the instruction mini-decoder `decode_x86_string_instruction`,
* the iteration bounders (`mem_intersect`,
  `bound_iterations_for_watchpoint`, and the target-state loop), and
* the driver `fast_forward_through_instruction`,

as executable Lean functions.  Addresses and counters are modelled as
`Nat`: the source's `uintptr_t` arithmetic never wraps in the modelled
domain, matching the design's explicit assumption that address-space
wraparound does not occur for user-mode tracees.  C `assert`/`ASSERT`
failures are modelled as an error result carrying the process state at
the abort; fallible decoding returns `Option`.  The Task/ptrace
interface (register access, resume/wait, debug status, the
breakpoint/watchpoint tables) is not part of the source file and is
modelled from the specification, as are the x86 string-instruction
semantics themselves.
-/

namespace FastForward

/-- Architecture tag of a tracee (`SupportedArch` in the source). -/
inductive SupportedArch where
  | x86
  | x86_64
  | other
deriving DecidableEq, Repr

/-- `InstructionBuf`: architecture tag plus the bytes prefetched from IP.
`code_buf` models the contents of the source's 32-byte array: its first
`code_buf_len` entries are the fetched bytes, any further entries model
the uninitialised remainder of the array. -/
structure InstructionBuf where
  arch : SupportedArch
  code_buf : List Nat
  code_buf_len : Nat
deriving DecidableEq, Repr

/-- `DecodedInstruction` from the source. -/
structure DecodedInstruction where
  operand_size : Nat
  length : Nat
  modifies_flags : Bool
deriving DecidableEq, Repr

/-- String opcodes that do not modify flags (MOVS/STOS/LODS forms). -/
def isStringOpcodePlain (b : Nat) : Bool :=
  b = 0xA4 || b = 0xA5 || b = 0xAA || b = 0xAB || b = 0xAC || b = 0xAD

/-- String opcodes that modify flags (CMPS/SCAS forms). -/
def isStringOpcodeFlags (b : Nat) : Bool :=
  b = 0xA6 || b = 0xA7 || b = 0xAE || b = 0xAF

/-- The tail of `decode_x86_string_instruction` after its scanning loop
(lines 81-92 of the source): fail without a REP prefix, otherwise emit
length `i + 1` and the operand size selected by the low bit of the byte
at index `i` and the seen prefixes. -/
def decodeFinish (opcode i : Nat) (fop frep frexw mf : Bool) :
    Option DecodedInstruction :=
  if frep then
    some { operand_size :=
             if opcode % 2 = 1 then
               if frexw then 8 else if fop then 2 else 4
             else 1,
           length := i + 1,
           modifies_flags := mf }
  else none

/-- The scanning loop of `decode_x86_string_instruction` (lines 41-79).
`remaining` is the code buffer from index `i` on and `fl` is
`code_buf_len - i`, so the loop guard `i < code_buf_len` becomes
`fl > 0`.  When the loop exhausts the fetched bytes without reaching an
opcode, the source falls through and reads `code_buf[i]`, one byte past
the fetched length; here that byte is the head of the leftover list
(or 0 when the modelled array holds nothing there). -/
def decodeLoop (arch : SupportedArch) :
    List Nat → Nat → Nat → Bool → Bool → Bool → Option DecodedInstruction
  | remaining, 0, i, fop, frep, frexw =>
      decodeFinish (remaining.headD 0) i fop frep frexw false
  | remaining, fl + 1, i, fop, frep, frexw =>
      let b := remaining.headD 0
      if b = 0x66 then
        decodeLoop arch remaining.tail fl (i + 1) true frep frexw
      else if b = 0x48 then
        if arch = SupportedArch.x86_64 then
          decodeLoop arch remaining.tail fl (i + 1) fop frep true
        else none
      else if b = 0xF2 || b = 0xF3 then
        decodeLoop arch remaining.tail fl (i + 1) fop true frexw
      else if isStringOpcodePlain b then
        decodeFinish b i fop frep frexw false
      else if isStringOpcodeFlags b then
        decodeFinish b i fop frep frexw true
      else none

/-- `decode_x86_string_instruction` (source lines 33-93). -/
def decode_x86_string_instruction (code : InstructionBuf) :
    Option DecodedInstruction :=
  decodeLoop code.arch code.code_buf code.code_buf_len 0 false false false

/-- Kind of a watchpoint (from the external `WatchConfig`). -/
inductive WatchType where
  | WATCH_EXEC
  | WATCH_WRITE
  | WATCH_READWRITE
deriving DecidableEq, Repr

/-- `WatchConfig`: a watchpoint's address range and kind. -/
structure WatchConfig where
  addr : Nat
  num_bytes : Nat
  kind : WatchType
deriving DecidableEq, Repr

/-- `mem_intersect` (source lines 95-100).  The two `assert`s demand
that neither range wraps; over `Nat` the assertion `a + s > a` holds
exactly when `s > 0`.  A failed assert aborts, modelled as `none`. -/
def mem_intersect (a1 s1 a2 s2 : Nat) : Option Bool :=
  if a1 + s1 > a1 ∧ a2 + s2 > a2 then
    some (max a1 a2 < min (a1 + s1) (a2 + s2))
  else none

/-- `bound_iterations_for_watchpoint` (source lines 102-135), with the
in/out parameter made explicit: given the direction flag, the value of
the address register (`SI` or `DI`), the decoded instruction, one
watchpoint and the current bound, return the new bound (or `none` for
an assert abort inside `mem_intersect`). -/
def bound_iterations_for_watchpoint (df : Bool) (reg : Nat)
    (decoded : DecodedInstruction) (watch : WatchConfig)
    (iterations : Nat) : Option Nat :=
  let size := decoded.operand_size
  match mem_intersect reg size watch.addr watch.num_bytes with
  | none => none
  | some true => some 0
  | some false =>
    if df = false then
      if watch.addr < reg then some iterations
      else some (min iterations ((watch.addr - reg) / size))
    else
      if watch.addr > reg then some iterations
      else some (min iterations ((reg - (watch.addr + watch.num_bytes)) / size + 1))

/-- Register file snapshot.  Only the registers the core consults are
modelled: `IP`, `CX`, `SI`, `DI` and the direction flag. -/
structure Registers where
  ip : Nat
  cx : Nat
  si : Nat
  di : Nat
  df : Bool
deriving DecidableEq, Repr

/-- Modelled from the spec: `Registers::matches`, equality of register
snapshots (the Task interface is not part of the source file). -/
def Registers.regMatches (a b : Registers) : Bool := a = b

/-- The target-state bounding loop (source lines 201-223): one pass over
the null-terminated `states` array, tightening `iterations`. -/
def bound_states (ip len cur_cx : Nat) :
    List Registers → Nat → Nat
  | [], iterations => iterations
  | s :: rest, iterations =>
      let iterations :=
        if s.ip = ip then
          if s.cx = 0 then iterations
          else if cur_cx ≤ s.cx then iterations
          else min iterations (cur_cx - s.cx - 1)
        else if s.ip = ip + len then
          if cur_cx ≤ s.cx then iterations
          else min iterations (cur_cx - s.cx - 1)
        else iterations
      bound_states ip len cur_cx rest iterations

/-- The watchpoint bounding loop (source lines 236-241): for each
active watchpoint, bound against `SI` and then against `DI`. -/
def bound_watchpoints (df : Bool) (si di : Nat)
    (decoded : DecodedInstruction) :
    List WatchConfig → Nat → Option Nat
  | [], iterations => some iterations
  | w :: ws, iterations =>
    match bound_iterations_for_watchpoint df si decoded w iterations with
    | none => none
    | some iterations =>
      match bound_iterations_for_watchpoint df di decoded w iterations with
      | none => none
      | some iterations => bound_watchpoints df si di decoded ws iterations

/-! ### The Task interface and machine model

The Task/ptrace layer (`task.h`) is not part of the source file; it and
the CPU-level semantics of REP-prefixed string instructions are
modelled from the specification (sections 3, 4.1 and 6). -/

/-- Breakpoint type (`TRAP_NONE` / user / internal). -/
inductive TrapType where
  | TRAP_NONE
  | TRAP_BKPT_USER
  | TRAP_BKPT_INTERNAL
deriving DecidableEq, Repr

/-- Modelled from the spec: the observable state of a stopped tracee —
registers, the signal that stopped it, the sticky debug-status bits
(a watchpoint-any bit and a single-step bit, cleared only by
`consume_debug_status`), the VM's breakpoint and watchpoint tables and
the saved-watchpoint stack.  `time` counts instructions the CPU has
executed (it indexes the ZF oracle), `resume_count` counts
`resume_execution` calls.  `bound_log` and `watch_log` record what the
source's two `LOG(debug)` statements print: every computed iteration
bound and every installed fast-forward watchpoint. -/
structure TraceeState where
  regs : Registers
  pending_sig : Nat
  ds_watchpoint : Bool
  ds_singlestep : Bool
  breakpoints : List (Nat × TrapType)
  watchpoints : List WatchConfig
  saved_watchpoints : List (List WatchConfig)
  time : Nat
  resume_count : Nat
  bound_log : List Nat
  watch_log : List (Nat × Nat)
deriving DecidableEq, Repr

/-- Modelled from the spec: the tracee's program and environment — the
architecture, the memory image as seen by `read_bytes_fallible`
(bytes plus fetched length at each address), the data-dependent REP
termination oracle for flag-modifying string instructions (indexed by
CPU time), spurious stop signals delivered instead of a resume
(indexed by resume count; `none` everywhere for a well-behaved
kernel), and the behaviour of non-string instructions. -/
structure MachineEnv where
  arch : SupportedArch
  fetch : Nat → List Nat × Nat
  rep_continues : Nat → Bool
  interrupt : Nat → Option Nat
  other_step : Registers → Registers

/-- `read_instruction` (source lines 19-25): assemble an
`InstructionBuf` from the tracee's architecture and memory. -/
def read_instruction (env : MachineEnv) (ip : Nat) : InstructionBuf :=
  { arch := env.arch, code_buf := (env.fetch ip).1,
    code_buf_len := (env.fetch ip).2 }

/-- Modelled from the spec: which string opcodes address through `SI`
(MOVS, LODS, CMPS — spec section 4.1 table). -/
def usesSI (b : Nat) : Bool :=
  b = 0xA4 || b = 0xA5 || b = 0xAC || b = 0xAD || b = 0xA6 || b = 0xA7

/-- Modelled from the spec: which string opcodes address through `DI`
(MOVS, STOS, CMPS, SCAS — spec section 4.1 table). -/
def usesDI (b : Nat) : Bool :=
  b = 0xA4 || b = 0xA5 || b = 0xAA || b = 0xAB ||
  b = 0xA6 || b = 0xA7 || b = 0xAE || b = 0xAF

/-- Hardware range overlap used for watchpoint triggering (no asserts:
this is the debug-register comparator, not the source's
`mem_intersect`). -/
def rangesOverlap (a s b t : Nat) : Bool :=
  max a b < min (a + s) (b + t)

/-- Does an access of `size` bytes at `a` touch any active watchpoint? -/
def touchesAny (wps : List WatchConfig) (a size : Nat) : Bool :=
  wps.any fun w => rangesOverlap a size w.addr w.num_bytes

/-- The opcode byte of a decoded instruction: the byte the decoder
stopped at, at index `length - 1` of the code buffer. -/
def opcodeByte (env : MachineEnv) (ip : Nat) (d : DecodedInstruction) : Nat :=
  ((env.fetch ip).1).getD (d.length - 1) 0

/-- Modelled from the spec: one hardware iteration of a REP string
instruction (spec sections 4.1 and glossary).  With `CX = 0` the
instruction is skipped.  Otherwise one iteration runs: `CX` drops by
one, each used address register moves by `operand_size` in the `DF`
direction, and the loop is left (IP moves past the instruction) when
`CX` reaches zero or, for flag-modifying forms, when the REP condition
fails.  The returned flag records whether the iteration's memory
accesses touched an active watchpoint. -/
def execString (env : MachineEnv) (d : DecodedInstruction) (op : Nat)
    (wps : List WatchConfig) (time : Nat) (r : Registers) :
    Registers × Bool :=
  if r.cx = 0 then ({ r with ip := r.ip + d.length }, false)
  else
    let size := d.operand_size
    let fired := (usesSI op && touchesAny wps r.si size) ||
                 (usesDI op && touchesAny wps r.di size)
    let si' := if usesSI op then (if r.df then r.si - size else r.si + size) else r.si
    let di' := if usesDI op then (if r.df then r.di - size else r.di + size) else r.di
    let cx' := r.cx - 1
    let exits := cx' = 0 || (d.modifies_flags && !env.rep_continues time)
    ({ ip := if exits then r.ip + d.length else r.ip,
       cx := cx', si := si', di := di', df := r.df }, fired)

/-- Modelled from the spec: executing the instruction currently at IP —
string semantics when the fetched bytes decode as a REP string
instruction on an x86 tracee, the environment's opaque behaviour
otherwise. -/
def exec_insn (env : MachineEnv) (wps : List WatchConfig) (time : Nat)
    (r : Registers) : Registers × Bool :=
  if env.arch = SupportedArch.x86 ∨ env.arch = SupportedArch.x86_64 then
    match decode_x86_string_instruction (read_instruction env r.ip) with
    | some d => execString env d (opcodeByte env r.ip d) wps time r
    | none => (env.other_step r, false)
  else (env.other_step r, false)

/-- Breakpoint lookup (`get_breakpoint_type_at_addr`). -/
def getBpType (bps : List (Nat × TrapType)) (a : Nat) : TrapType :=
  match bps with
  | [] => TrapType.TRAP_NONE
  | (b, ty) :: rest => if b = a then ty else getBpType rest a

/-- Modelled from the spec: `resume_execution(RESUME_SINGLESTEP,
RESUME_WAIT)`.  A spurious signal stops the tracee with nothing
executed; otherwise one instruction executes and the stop traps with
SIGTRAP, OR-ing the new DR6 bits into the sticky debug status. -/
def resume_singlestep (env : MachineEnv) (t : TraceeState) : TraceeState :=
  match env.interrupt t.resume_count with
  | some sig =>
      { t with pending_sig := sig, resume_count := t.resume_count + 1 }
  | none =>
      let step := exec_insn env t.watchpoints t.time t.regs
      { t with regs := step.1, pending_sig := 5,
               ds_watchpoint := t.ds_watchpoint || step.2,
               ds_singlestep := true,
               time := t.time + 1, resume_count := t.resume_count + 1 }

/-- Modelled from the spec: the running phase of
`resume_execution(RESUME_CONT, RESUME_WAIT)` — execute instructions
until arriving at a breakpointed address (stop one byte past it, as
after an `int3`) or until an iteration touches a watchpoint.  `none`
when the tracee does not stop within `fuel` instructions. -/
def cont_run (env : MachineEnv) : Nat → TraceeState → Option TraceeState
  | 0, _ => none
  | fuel + 1, t =>
    if getBpType t.breakpoints t.regs.ip ≠ TrapType.TRAP_NONE then
      some { t with regs := { t.regs with ip := t.regs.ip + 1 },
                    pending_sig := 5, time := t.time + 1 }
    else
      let step := exec_insn env t.watchpoints t.time t.regs
      let t' := { t with regs := step.1, time := t.time + 1 }
      if step.2 then
        some { t' with pending_sig := 5, ds_watchpoint := true }
      else cont_run env fuel t'

/-- Modelled from the spec: `resume_execution(RESUME_CONT, RESUME_WAIT)`
including spurious signal delivery. -/
def resume_cont (env : MachineEnv) (fuel : Nat) (t : TraceeState) :
    Option TraceeState :=
  match env.interrupt t.resume_count with
  | some sig =>
      some { t with pending_sig := sig, resume_count := t.resume_count + 1 }
  | none => cont_run env fuel { t with resume_count := t.resume_count + 1 }

/-- Modelled from the spec: `consume_debug_status` — read the sticky
status and clear it. -/
def consume_debug_status (t : TraceeState) : Bool × TraceeState :=
  (t.ds_watchpoint, { t with ds_watchpoint := false, ds_singlestep := false })

/-- Modelled from the spec: `save_watchpoints`. -/
def save_watchpoints (t : TraceeState) : TraceeState :=
  { t with saved_watchpoints := t.watchpoints :: t.saved_watchpoints }

/-- Modelled from the spec: `remove_all_watchpoints`. -/
def remove_all_watchpoints (t : TraceeState) : TraceeState :=
  { t with watchpoints := [] }

/-- Modelled from the spec: `add_watchpoint` (always finds a slot: the
table was emptied first).  The installed watchpoint is also recorded in
the log, mirroring the source's `LOG(debug)` at line 265. -/
def add_watchpoint (t : TraceeState) (a n : Nat) (k : WatchType) :
    TraceeState :=
  { t with watchpoints := t.watchpoints ++ [⟨a, n, k⟩],
           watch_log := t.watch_log ++ [(a, n)] }

/-- Modelled from the spec: `restore_watchpoints`. -/
def restore_watchpoints (t : TraceeState) : TraceeState :=
  { t with watchpoints := t.saved_watchpoints.headD [],
           saved_watchpoints := t.saved_watchpoints.tail }

/-- Modelled from the spec: `add_breakpoint`. -/
def add_breakpoint (t : TraceeState) (a : Nat) (ty : TrapType) :
    TraceeState :=
  { t with breakpoints := (a, ty) :: t.breakpoints }

/-- Remove the first breakpoint-table entry matching address and type. -/
def removeFirstBp : List (Nat × TrapType) → Nat → TrapType →
    List (Nat × TrapType)
  | [], _, _ => []
  | (b, bt) :: rest, a, ty =>
    if b = a ∧ bt = ty then rest else (b, bt) :: removeFirstBp rest a ty

/-- Modelled from the spec: `remove_breakpoint`. -/
def remove_breakpoint (t : TraceeState) (a : Nat) (ty : TrapType) :
    TraceeState :=
  { t with breakpoints := removeFirstBp t.breakpoints a ty }

/-! ### The fast-forward routine -/

/-- Outcome of a failed `ASSERT` (process aborts in the state carried
by the error) or of exhausting the execution fuel. -/
inductive FFErr where
  | assertFail (t : TraceeState)
  | outOfFuel (t : TraceeState)
deriving DecidableEq, Repr

/-- Intel write-coalescing safety margin (source line 258). -/
def BYTES_COALESCED : Nat := 128

/-- SIGTRAP's signal number. -/
def SIGTRAP : Nat := 5

/-- The batched phase of `fast_forward_through_instruction` (source
lines 258-288): when more than `BYTES_COALESCED` bytes of progress
remain, save and drop all watchpoints, install the temporary 1-byte
watchpoint and the internal breakpoint past the instruction, continue,
and on the breakpoint path (loop left early through `ZF`) rewind IP to
just past the instruction.  Returns the updated remaining-iterations
count with the state. -/
def batched_phase (env : MachineEnv) (decoded : DecodedInstruction)
    (ip fuelC cur_cx iterations : Nat) (t : TraceeState) :
    Except FFErr (Nat × TraceeState) :=
  let watch_offset := decoded.operand_size * (iterations - 1)
  if watch_offset > BYTES_COALESCED then
    let watch_offset := watch_offset - BYTES_COALESCED
    let t := save_watchpoints t
    let t := remove_all_watchpoints t
    let watch_di := if t.regs.df then t.regs.di - watch_offset
                    else t.regs.di + watch_offset
    let t := add_watchpoint t watch_di 1 WatchType.WATCH_READWRITE
    let t := add_breakpoint t (ip + decoded.length) TrapType.TRAP_BKPT_INTERNAL
    match resume_cont env fuelC t with
    | none => Except.error (FFErr.outOfFuel t)
    | some t =>
      if t.pending_sig ≠ SIGTRAP then Except.error (FFErr.assertFail t)
      else
        let consumed := consume_debug_status t
        let t := consumed.2
        let afterFixup : Except FFErr TraceeState :=
          if consumed.1 then Except.ok t
          else if t.regs.ip = ip + decoded.length + 1 ∧ decoded.modifies_flags then
            Except.ok { t with regs := { t.regs with ip := ip + decoded.length } }
          else Except.error (FFErr.assertFail t)
        match afterFixup with
        | Except.error e => Except.error e
        | Except.ok t =>
          let t := remove_breakpoint t (ip + decoded.length)
                     TrapType.TRAP_BKPT_INTERNAL
          let t := restore_watchpoints t
          Except.ok (iterations - (cur_cx - t.regs.cx), t)
  else Except.ok (iterations, t)

/-- The tail phase (source lines 294-303): single-step while iterations
remain and IP has not left the string instruction, asserting SIGTRAP
and that no watchpoint fired, consuming the debug status each step. -/
def tail_loop (env : MachineEnv) (ip : Nat) :
    Nat → TraceeState → Except FFErr TraceeState
  | 0, t => Except.ok t
  | its + 1, t =>
    if t.regs.ip ≠ ip then Except.ok t
    else
      let t := resume_singlestep env t
      if t.pending_sig ≠ SIGTRAP then Except.error (FFErr.assertFail t)
      else
        let consumed := consume_debug_status t
        if consumed.1 then Except.error (FFErr.assertFail consumed.2)
        else tail_loop env ip its consumed.2

/-- One round of the driver's `while (true)` loop (source lines
172-325): bound the iterations against `CX`, the target states and the
watchpoints, run the batched phase and the tail phase, and classify
the outcome.  `Sum.inl` is a return from the routine; `Sum.inr`
carries the extended avoid-set and rewound state for the ZF retry.
`retried` mirrors `!states_copy.empty()`: a second ZF exit asserts. -/
def ffRound (env : MachineEnv) (decoded : DecodedInstruction)
    (ip fuelC : Nat) (states : List Registers) (retried : Bool)
    (t : TraceeState) :
    Except FFErr (Sum TraceeState (List Registers × TraceeState)) :=
  let cur_cx := t.regs.cx
  if cur_cx = 0 then Except.ok (Sum.inl t)
  else
    let its0 := bound_states ip decoded.length cur_cx states (cur_cx - 1)
    match bound_watchpoints t.regs.df t.regs.si t.regs.di decoded
        t.watchpoints its0 with
    | none => Except.error (FFErr.assertFail t)
    | some iterations =>
      if iterations = 0 then Except.ok (Sum.inl t)
      else
        let t := { t with bound_log := t.bound_log ++ [iterations] }
        let r := t.regs
        match batched_phase env decoded ip fuelC cur_cx iterations t with
        | Except.error e => Except.error e
        | Except.ok out =>
          match tail_loop env ip out.1 out.2 with
          | Except.error e => Except.error e
          | Except.ok t =>
            if t.regs.ip ≠ ip then
              if t.regs.ip = ip + decoded.length ∧ decoded.modifies_flags then
                if retried then Except.error (FFErr.assertFail t)
                else Except.ok (Sum.inr (states ++ [t.regs], { t with regs := r }))
              else Except.error (FFErr.assertFail t)
            else Except.ok (Sum.inl t)

/-- The driver's retry loop: run rounds, feeding a ZF retry's extended
avoid-set back in.  `fuelO` bounds the number of rounds (two suffice,
see the C7 theorem). -/
def ffLoop (env : MachineEnv) (decoded : DecodedInstruction)
    (ip fuelC : Nat) :
    Nat → List Registers → Bool → TraceeState → Except FFErr TraceeState
  | 0, _, _, t => Except.error (FFErr.outOfFuel t)
  | fuelO + 1, states, retried, t =>
    match ffRound env decoded ip fuelC states retried t with
    | Except.error e => Except.error e
    | Except.ok (Sum.inl t) => Except.ok t
    | Except.ok (Sum.inr next) => ffLoop env decoded ip fuelC fuelO next.1 true next.2

/-- `fast_forward_through_instruction` (source lines 137-326): the
mandatory trial single-step, the soft-abort checks (IP moved,
breakpoint at the entry IP, watchpoint fired, target-state match,
non-x86 architecture, undecodable instruction) and the fast-forward
loop. -/
def fast_forward_through_instruction (env : MachineEnv)
    (fuelO fuelC : Nat) (states : List Registers) (t0 : TraceeState) :
    Except FFErr TraceeState :=
  let ip := t0.regs.ip
  let t := resume_singlestep env t0
  if t.pending_sig ≠ SIGTRAP then Except.error (FFErr.assertFail t)
  else if t.regs.ip ≠ ip then Except.ok t
  else if getBpType t.breakpoints ip ≠ TrapType.TRAP_NONE then Except.ok t
  else if t.ds_watchpoint then Except.ok t
  else if states.any fun s => s.regMatches t.regs then Except.ok t
  else if ¬(env.arch = SupportedArch.x86 ∨ env.arch = SupportedArch.x86_64) then
    Except.ok t
  else
    match decode_x86_string_instruction (read_instruction env ip) with
    | none => Except.ok t
    | some decoded => ffLoop env decoded ip fuelC fuelO states false t

/-- Projection: the final state of a normally returning invocation. -/
def okState : Except FFErr TraceeState → Option TraceeState
  | Except.ok t => some t
  | _ => none

/-- Projection: the process state at an assertion-failure abort. -/
def abortState : Except FFErr TraceeState → Option TraceeState
  | Except.error (FFErr.assertFail t) => some t
  | _ => none

/-- Two tracee states agree on the externally visible breakpoint and
watchpoint configuration (the tables and the saved-set stack). -/
def sameTables (a b : TraceeState) : Prop :=
  a.breakpoints = b.breakpoints ∧ a.watchpoints = b.watchpoints ∧
  a.saved_watchpoints = b.saved_watchpoints

/-! ### Specification-side definitions

These restate rules in the specification's own words, to be compared
against the source-derived functions above. -/

/-- The specification's per-target-state bounding rule (spec section
4.3): a state at the instruction's IP is skipped when its `CX` is zero
or at least `cur_cx`, a state just past the instruction is skipped when
its `CX` is at least `cur_cx`, any other IP is ignored; a non-skipped
state tightens the bound to `cur_cx - s.cx - 1`. -/
def spec_state_bound_step (ip len cur_cx its : Nat) (s : Registers) : Nat :=
  if s.ip = ip then
    if s.cx = 0 ∨ cur_cx ≤ s.cx then its else min its (cur_cx - s.cx - 1)
  else if s.ip = ip + len then
    if cur_cx ≤ s.cx then its else min its (cur_cx - s.cx - 1)
  else its

/-- Does the byte occur in the list?  (Used to speak about which
prefixes a decoded instruction carried.) -/
def hasByte : List Nat → Nat → Bool
  | [], _ => false
  | b :: bs, x => (b = x) || hasByte bs x

/-! ### Concrete scenarios -/

/-- Scenario S1 of the specification: an x86-64 tracee executing
`rep movsb` (`F3 A4`) at IP `0x1000`, with a well-behaved kernel. -/
def envS1 : MachineEnv :=
  { arch := SupportedArch.x86_64,
    fetch := fun a => if a = 0x1000 then ([0xF3, 0xA4], 2) else ([], 0),
    rep_continues := fun _ => true,
    interrupt := fun _ => none,
    other_step := id }

/-- Scenario S1's entry state: `CX=1000`, `SI=0x8000`, `DI=0x9000`,
`DF=0`, no breakpoints or watchpoints, no pending debug status. -/
def t0S1 : TraceeState :=
  { regs := { ip := 0x1000, cx := 1000, si := 0x8000, di := 0x9000, df := false },
    pending_sig := 0, ds_watchpoint := false, ds_singlestep := false,
    breakpoints := [], watchpoints := [], saved_watchpoints := [],
    time := 0, resume_count := 0, bound_log := [], watch_log := [] }

/-- Entry state with `CX=2`: after the trial step `cur_cx = 1`, so the
iteration bound is zero and the routine soft-aborts. -/
def t0C6 : TraceeState :=
  { t0S1 with
    regs := { ip := 0x1000, cx := 2, si := 0x8000, di := 0x9000, df := false } }

/-- Entry state with `CX=3`: one bounded iteration, tail phase only. -/
def t0W : TraceeState :=
  { t0S1 with
    regs := { ip := 0x1000, cx := 3, si := 0x8000, di := 0x9000, df := false } }

/-- The S1 machine with a kernel that delivers a spurious `SIGKILL`
stop in place of the batched phase's continue (resume number 1). -/
def envC2 : MachineEnv :=
  { envS1 with interrupt := fun rc => if rc = 1 then some 9 else none }

/-- An x86-64 tracee executing `rep cmpsb` (`F3 A6`) at `0x1000` whose
memory contents make the REP condition fail at CPU times 2 and 3: the
ZF early exit happens once, and then again immediately after the
retry's register rewind. -/
def envC7 : MachineEnv :=
  { arch := SupportedArch.x86_64,
    fetch := fun a => if a = 0x1000 then ([0xF3, 0xA6], 2) else ([], 0),
    rep_continues := fun tm => !(tm = 2 || tm = 3),
    interrupt := fun _ => none,
    other_step := id }

/-- Entry state for the double-ZF-exit run: `CX=5`. -/
def t0C7 : TraceeState :=
  { t0S1 with
    regs := { ip := 0x1000, cx := 5, si := 0x8000, di := 0x9000, df := false } }

/-- The decoded form of `F3 A4` (`rep movsb`). -/
def decW : DecodedInstruction :=
  { operand_size := 1, length := 2, modifies_flags := false }

/-- Final state of the `CX=3` run `fast_forward_through_instruction
envS1 2 100 [] t0W`: one trial iteration, one tail iteration. -/
def resW : TraceeState :=
  { regs := { ip := 0x1000, cx := 1, si := 0x8002, di := 0x9002, df := false },
    pending_sig := 5, ds_watchpoint := false, ds_singlestep := false,
    breakpoints := [], watchpoints := [], saved_watchpoints := [],
    time := 2, resume_count := 2, bound_log := [1], watch_log := [] }

/-- Final state of the `CX=2` run `fast_forward_through_instruction
envS1 2 100 [] t0C6`: only the trial iteration ran before the
zero-bound soft abort, its single-step status still pending. -/
def resC6 : TraceeState :=
  { regs := { ip := 0x1000, cx := 1, si := 0x8001, di := 0x9001, df := false },
    pending_sig := 5, ds_watchpoint := false, ds_singlestep := true,
    breakpoints := [], watchpoints := [], saved_watchpoints := [],
    time := 1, resume_count := 1, bound_log := [], watch_log := [] }

/-! ### Theorems: the bounding computations -/

/-- The range test computed by the bounders really is non-emptiness of
the intersection of the two byte ranges. -/
theorem rangesOverlap_iff (a s b t : Nat) :
    rangesOverlap a s b t = true ↔
    ∃ x, a ≤ x ∧ x < a + s ∧ b ≤ x ∧ x < b + t := by
  unfold rangesOverlap
  simp only [decide_eq_true_eq]
  constructor
  · intro h
    exact ⟨max a b, by omega, by omega, by omega, by omega⟩
  · rintro ⟨x, h1, h2, h3, h4⟩
    omega

/-- Full case characterisation of `bound_iterations_for_watchpoint`
for non-empty ranges (the source's asserts hold exactly then). -/
theorem bound_iterations_cases (df : Bool) (reg its : Nat)
    (decoded : DecodedInstruction) (w : WatchConfig)
    (hs : 0 < decoded.operand_size) (hn : 0 < w.num_bytes) :
    bound_iterations_for_watchpoint df reg decoded w its =
    some (if rangesOverlap reg decoded.operand_size w.addr w.num_bytes then 0
          else if df = false then
            if reg ≤ w.addr then
              min its ((w.addr - reg) / decoded.operand_size)
            else its
          else
            if w.addr ≤ reg then
              min its ((reg - (w.addr + w.num_bytes)) / decoded.operand_size + 1)
            else its) := by
  have hg : reg + decoded.operand_size > reg ∧ w.addr + w.num_bytes > w.addr := by
    omega
  simp only [bound_iterations_for_watchpoint, mem_intersect, rangesOverlap,
    if_pos hg]
  by_cases hov : max reg w.addr < min (reg + decoded.operand_size) (w.addr + w.num_bytes)
  · simp only [decide_eq_true hov]
    simp
  · simp only [decide_eq_false hov]
    simp only [Bool.false_eq_true, if_false]
    by_cases hdf : df = false
    · simp only [if_pos hdf]
      by_cases hlt : w.addr < reg
      · simp only [if_pos hlt, if_neg (show ¬reg ≤ w.addr by omega)]
      · simp only [if_neg hlt, if_pos (show reg ≤ w.addr by omega)]
    · simp only [if_neg hdf]
      by_cases hgt : w.addr > reg
      · simp only [if_pos hgt, if_neg (show ¬w.addr ≤ reg by omega)]
      · simp only [if_neg hgt, if_pos (show w.addr ≤ reg by omega)]

/-- Claim C4: for every active watchpoint and address register value,
the bounder sets the bound to 0 on intersection; otherwise moving
forward it tightens to `(w.addr - R) / size` when `w.addr ≥ R` and
leaves the bound unchanged when `w.addr < R`, and moving backward it
tightens to `(R - (w.addr + w.num_bytes)) / size + 1` when
`w.addr ≤ R` and leaves the bound unchanged when `w.addr > R`. -/
theorem claim_C4 (df : Bool) (reg its : Nat)
    (decoded : DecodedInstruction) (w : WatchConfig)
    (hs : 0 < decoded.operand_size) (hn : 0 < w.num_bytes) :
    bound_iterations_for_watchpoint df reg decoded w its =
    some (if rangesOverlap reg decoded.operand_size w.addr w.num_bytes then 0
          else if df = false then
            if reg ≤ w.addr then
              min its ((w.addr - reg) / decoded.operand_size)
            else its
          else
            if w.addr ≤ reg then
              min its ((reg - (w.addr + w.num_bytes)) / decoded.operand_size + 1)
            else its) :=
  bound_iterations_cases df reg its decoded w hs hn

/-- Witness for C4: `DF=0`, `R=0x9000`, operand size 2, watchpoint of 4
bytes at `0x9100`, incoming bound 999: the bound tightens to
`(0x9100 - 0x9000) / 2 = 128`. -/
theorem claim_C4_witness :
    0 < (2 : Nat) ∧ 0 < (4 : Nat) ∧
    bound_iterations_for_watchpoint false 0x9000
      { operand_size := 2, length := 3, modifies_flags := false }
      { addr := 0x9100, num_bytes := 4, kind := WatchType.WATCH_READWRITE }
      999 = some 128 := by
  refine ⟨by decide, by decide, ?_⟩
  rw [claim_C4 false 0x9000 999
    { operand_size := 2, length := 3, modifies_flags := false }
    { addr := 0x9100, num_bytes := 4, kind := WatchType.WATCH_READWRITE }
    (by decide) (by decide)]
  decide

/-- Claim C8: a watchpoint that lies entirely on the wrong side of the
address register — below it when moving forward, above it when moving
backward, so that reaching it would require the address to wrap — is
treated as unreachable: the bound is returned unchanged and the
computation does not abort. -/
theorem claim_C8 (df : Bool) (reg its : Nat)
    (decoded : DecodedInstruction) (w : WatchConfig)
    (hs : 0 < decoded.operand_size) (hn : 0 < w.num_bytes)
    (hside : (df = false ∧ w.addr + w.num_bytes ≤ reg) ∨
             (df = true ∧ reg + decoded.operand_size ≤ w.addr)) :
    bound_iterations_for_watchpoint df reg decoded w its = some its := by
  rw [bound_iterations_cases df reg its decoded w hs hn]
  rcases hside with ⟨hdf, hle⟩ | ⟨hdf, hle⟩ <;> subst hdf
  · have hov : rangesOverlap reg decoded.operand_size w.addr w.num_bytes = false := by
      unfold rangesOverlap
      simp only [decide_eq_false_iff_not]
      omega
    have h1 : ¬reg ≤ w.addr := by omega
    simp [hov, h1]
  · have hov : rangesOverlap reg decoded.operand_size w.addr w.num_bytes = false := by
      unfold rangesOverlap
      simp only [decide_eq_false_iff_not]
      omega
    have h1 : ¬w.addr ≤ reg := by omega
    simp [hov, h1]

/-- Witness for C8: moving forward (`DF=0`) from `R = 0x9000` with a
4-byte watchpoint ending at `0x8004 ≤ R`: bound 999 is unchanged. -/
theorem claim_C8_witness :
    0 < (2 : Nat) ∧ 0 < (4 : Nat) ∧ (0x8000 + 4 : Nat) ≤ 0x9000 ∧
    bound_iterations_for_watchpoint false 0x9000
      { operand_size := 2, length := 3, modifies_flags := false }
      { addr := 0x8000, num_bytes := 4, kind := WatchType.WATCH_READWRITE }
      999 = some 999 :=
  ⟨by decide, by decide, by decide,
    claim_C8 false 0x9000 999
      { operand_size := 2, length := 3, modifies_flags := false }
      { addr := 0x8000, num_bytes := 4, kind := WatchType.WATCH_READWRITE }
      (by decide) (by decide) (Or.inl ⟨rfl, by decide⟩)⟩

/-- The source's target-state pass equals a left fold of the
specification's per-state rule. -/
theorem bound_states_eq_foldl (ip len cur_cx : Nat) :
    ∀ (states : List Registers) (init : Nat),
      bound_states ip len cur_cx states init =
      states.foldl (spec_state_bound_step ip len cur_cx) init := by
  intro states
  induction states with
  | nil => intro init; rfl
  | cons s rest ih =>
    intro init
    rw [List.foldl_cons, ← ih]
    simp only [bound_states]
    congr 1
    unfold spec_state_bound_step
    split_ifs <;> first | rfl | omega

/-- Claim C3: a bounding round starts from `cur_cx - 1` and processes
each target state exactly by the specification's skip/tighten rule
(states at other IPs are ignored); in scenario S4 (`cur_cx = 200`, one
state at the same IP with `cx = 50`) the resulting bound is 149. -/
theorem claim_C3 :
    (∀ (states : List Registers) (ip len cur_cx : Nat),
      bound_states ip len cur_cx states (cur_cx - 1) =
      states.foldl (spec_state_bound_step ip len cur_cx) (cur_cx - 1)) ∧
    bound_states 0x1000 2 200
      [{ ip := 0x1000, cx := 50, si := 0, di := 0, df := false }] 199 = 149 :=
  ⟨fun states ip len cur_cx => bound_states_eq_foldl ip len cur_cx states _,
   by decide⟩

/-- Claim C10 is wrong about the code: a buffer whose fetched bytes are
a lone REP prefix still decodes successfully.  The scanning loop falls
off the end of the fetched bytes, the source then reads `code_buf[i]`
with `i = code_buf_len` — one byte past the fetched length — and
returns `true`; the resulting operand size even depends on that
unfetched byte `g`. -/
theorem claim_C10 (g : Nat) :
    decode_x86_string_instruction
      { arch := SupportedArch.x86_64, code_buf := [0xF3, g], code_buf_len := 1 } =
    some { operand_size := if g % 2 = 1 then 4 else 1, length := 2,
           modifies_flags := false } := by
  show decodeLoop SupportedArch.x86_64 [0xF3, g] 1 0 false false false = _
  unfold decodeLoop
  norm_num
  simp [decodeLoop, decodeFinish]

/-! ### Theorems: the decoder -/

/-- A byte accepted as a string opcode is one of the ten listed ones. -/
theorem stringOpcode_cases (op : Nat)
    (h : (isStringOpcodePlain op || isStringOpcodeFlags op) = true) :
    op = 0xA4 ∨ op = 0xA5 ∨ op = 0xAA ∨ op = 0xAB ∨ op = 0xAC ∨ op = 0xAD ∨
    op = 0xA6 ∨ op = 0xA7 ∨ op = 0xAE ∨ op = 0xAF := by
  simp only [isStringOpcodePlain, isStringOpcodeFlags, Bool.or_eq_true,
    decide_eq_true_eq] at h
  tauto

/-- String opcodes are disjoint from the recognised prefix bytes, and
from the plain/flags split. -/
theorem stringOpcode_facts (op : Nat)
    (h : (isStringOpcodePlain op || isStringOpcodeFlags op) = true) :
    op ≠ 0x66 ∧ op ≠ 0x48 ∧ op ≠ 0xF2 ∧ op ≠ 0xF3 ∧
    (isStringOpcodePlain op = true → isStringOpcodeFlags op = false) ∧
    (isStringOpcodePlain op = false → isStringOpcodeFlags op = true) := by
  rcases stringOpcode_cases op h with h | h | h | h | h | h | h | h | h | h <;>
    subst h <;>
    exact ⟨by decide, by decide, by decide, by decide,
      fun hh => by first | decide | exact absurd hh (by decide),
      fun hh => by first | decide | exact absurd hh (by decide)⟩

/-- One unfolding step of the scanning loop with fetched bytes left. -/
theorem decodeLoop_cons (arch : SupportedArch) (b : Nat) (bs : List Nat)
    (fl i : Nat) (fop frep frexw : Bool) :
    decodeLoop arch (b :: bs) (fl + 1) i fop frep frexw =
    (if b = 0x66 then decodeLoop arch bs fl (i + 1) true frep frexw
     else if b = 0x48 then
       if arch = SupportedArch.x86_64 then
         decodeLoop arch bs fl (i + 1) fop frep true
       else none
     else if b = 0xF2 || b = 0xF3 then
       decodeLoop arch bs fl (i + 1) fop true frexw
     else if isStringOpcodePlain b then decodeFinish b i fop frep frexw false
     else if isStringOpcodeFlags b then decodeFinish b i fop frep frexw true
     else none) := rfl

/-- The scanning loop at the end of the fetched bytes falls through to
the finish, reading the head of the unfetched leftover. -/
theorem decodeLoop_zero (arch : SupportedArch) (bs : List Nat) (i : Nat)
    (fop frep frexw : Bool) :
    decodeLoop arch bs 0 i fop frep frexw =
    decodeFinish (bs.headD 0) i fop frep frexw false := rfl

/-- Running the scanning loop over a list of recognised prefix bytes
followed by a string opcode: the loop consumes the prefixes,
accumulating the seen-prefix flags, and finishes at the opcode. -/
theorem decodeLoop_prefix_run (arch : SupportedArch) (op : Nat)
    (rest : List Nat)
    (hop : (isStringOpcodePlain op || isStringOpcodeFlags op) = true) :
    ∀ (ps : List Nat) (fl i : Nat) (fop frep frexw : Bool),
      (∀ b ∈ ps, b = 0x66 ∨ b = 0xF2 ∨ b = 0xF3 ∨
        (b = 0x48 ∧ arch = SupportedArch.x86_64)) →
      decodeLoop arch (ps ++ op :: rest) (ps.length + (fl + 1)) i fop frep frexw =
      decodeFinish op (i + ps.length)
        (fop || hasByte ps 0x66)
        (frep || (hasByte ps 0xF2 || hasByte ps 0xF3))
        (frexw || hasByte ps 0x48)
        (isStringOpcodeFlags op) := by
  intro ps
  induction ps with
  | nil =>
    intro fl i fop frep frexw _
    obtain ⟨h66, h48, hF2, hF3, hpf, hfp⟩ := stringOpcode_facts op hop
    simp only [List.nil_append, List.length_nil, Nat.zero_add, Nat.add_zero,
      hasByte, Bool.or_false]
    rw [decodeLoop_cons, if_neg h66, if_neg h48,
      if_neg (show ¬((op = 0xF2 || op = 0xF3) = true) by simp [hF2, hF3])]
    by_cases hplain : isStringOpcodePlain op = true
    · rw [if_pos hplain, hpf hplain]
    · have hflags : isStringOpcodeFlags op = true := hfp (by simpa using hplain)
      rw [if_neg hplain, if_pos hflags, hflags]
  | cons p ps ih =>
    intro fl i fop frep frexw hps
    have hp := hps p (List.mem_cons_self p ps)
    have hps' : ∀ b ∈ ps, b = 0x66 ∨ b = 0xF2 ∨ b = 0xF3 ∨
        (b = 0x48 ∧ arch = SupportedArch.x86_64) :=
      fun b hb => hps b (List.mem_cons_of_mem p hb)
    have hlen : (p :: ps).length + (fl + 1) = (ps.length + (fl + 1)) + 1 := by
      simp only [List.length_cons]
      omega
    rw [List.cons_append, hlen]
    rcases hp with hp | hp | hp | ⟨hp, harch⟩ <;> subst hp
    · rw [decodeLoop_cons, if_pos rfl, ih fl (i + 1) true frep frexw hps']
      simp only [hasByte, List.length_cons,
        show i + (ps.length + 1) = (i + 1) + ps.length from by omega]
      simp
    · rw [decodeLoop_cons, if_neg (by decide), if_neg (by decide),
        if_pos (show (((0xF2 : Nat) = 0xF2 || (0xF2 : Nat) = 0xF3) = true) by decide),
        ih fl (i + 1) fop true frexw hps']
      simp only [hasByte, List.length_cons,
        show i + (ps.length + 1) = (i + 1) + ps.length from by omega]
      simp
    · rw [decodeLoop_cons, if_neg (by decide), if_neg (by decide),
        if_pos (show (((0xF3 : Nat) = 0xF2 || (0xF3 : Nat) = 0xF3) = true) by decide),
        ih fl (i + 1) fop true frexw hps']
      simp only [hasByte, List.length_cons,
        show i + (ps.length + 1) = (i + 1) + ps.length from by omega]
      simp
    · rw [decodeLoop_cons, if_neg (by decide), if_pos rfl, if_pos harch,
        ih fl (i + 1) fop frep true hps']
      simp only [hasByte, List.length_cons,
        show i + (ps.length + 1) = (i + 1) + ps.length from by omega]
      simp

/-- Claim C9: for a fetched buffer made of recognised prefix bytes
(including at least one REP prefix, with `0x48` only on x86-64)
followed by one of the ten string opcodes, decoding succeeds with
`length` = number of prefix bytes + 1 and with the operand size
selected by the opcode's low bit, then REX.W, then `0x66`, else 4. -/
theorem claim_C9 (arch : SupportedArch) (ps rest : List Nat) (op fl : Nat)
    (hps : ∀ b ∈ ps, b = 0x66 ∨ b = 0xF2 ∨ b = 0xF3 ∨
      (b = 0x48 ∧ arch = SupportedArch.x86_64))
    (hrep : (hasByte ps 0xF2 || hasByte ps 0xF3) = true)
    (hop : (isStringOpcodePlain op || isStringOpcodeFlags op) = true) :
    decode_x86_string_instruction
      { arch := arch, code_buf := ps ++ op :: rest,
        code_buf_len := ps.length + (fl + 1) } =
    some { operand_size :=
             if op % 2 = 1 then
               if hasByte ps 0x48 then 8
               else if hasByte ps 0x66 then 2
               else 4
             else 1,
           length := ps.length + 1,
           modifies_flags := isStringOpcodeFlags op } := by
  show decodeLoop arch (ps ++ op :: rest) (ps.length + (fl + 1))
    0 false false false = _
  rw [decodeLoop_prefix_run arch op rest hop ps fl 0 false false false hps]
  unfold decodeFinish
  simp [hrep]

/-- Witness for C9: `F3 66 A5` on x86-64 (REP + operand-size override +
MOVSW) decodes to operand size 2, length 3, not flag-modifying. -/
theorem claim_C9_witness :
    (∀ b ∈ [0xF3, 0x66], b = 0x66 ∨ b = 0xF2 ∨ b = 0xF3 ∨
      (b = 0x48 ∧ SupportedArch.x86_64 = SupportedArch.x86_64)) ∧
    (hasByte [0xF3, 0x66] 0xF2 || hasByte [0xF3, 0x66] 0xF3) = true ∧
    decode_x86_string_instruction
      { arch := SupportedArch.x86_64, code_buf := [0xF3, 0x66, 0xA5],
        code_buf_len := 3 } =
    some { operand_size := 2, length := 3, modifies_flags := false } := by
  refine ⟨by decide, by decide, ?_⟩
  have h := claim_C9 SupportedArch.x86_64 [0xF3, 0x66] [] 0xA5 0
    (by decide) (by decide) (by decide)
  simpa using h

/-- The scanning loop only ever reports a length beyond the position it
started at. -/
theorem decodeLoop_length_lt (arch : SupportedArch) :
    ∀ (fl : Nat) (bs : List Nat) (i : Nat) (fop frep frexw : Bool)
      (d : DecodedInstruction),
      decodeLoop arch bs fl i fop frep frexw = some d → i < d.length := by
  intro fl
  induction fl with
  | zero =>
    intro bs i fop frep frexw d h
    rw [decodeLoop_zero] at h
    unfold decodeFinish at h
    split at h
    · cases h
      simp
    · cases h
  | succ fl ih =>
    intro bs i fop frep frexw d h
    rcases bs with _ | ⟨b, bs⟩
    · rw [show ([] : List Nat) = [] from rfl] at h
      unfold decodeLoop at h
      simp only [List.headD] at h
      split at h
      · exact Nat.lt_of_lt_of_le (Nat.lt_succ_self i)
          (le_of_lt (ih _ _ _ _ _ _ h))
      · split at h
        · split at h
          · exact Nat.lt_of_lt_of_le (Nat.lt_succ_self i)
              (le_of_lt (ih _ _ _ _ _ _ h))
          · cases h
        · split at h
          · exact Nat.lt_of_lt_of_le (Nat.lt_succ_self i)
              (le_of_lt (ih _ _ _ _ _ _ h))
          · split at h
            · unfold decodeFinish at h
              split at h
              · cases h; simp
              · cases h
            · split at h
              · unfold decodeFinish at h
                split at h
                · cases h; simp
                · cases h
              · cases h
    · rw [decodeLoop_cons] at h
      split at h
      · exact Nat.lt_of_lt_of_le (Nat.lt_succ_self i)
          (le_of_lt (ih _ _ _ _ _ _ h))
      · split at h
        · split at h
          · exact Nat.lt_of_lt_of_le (Nat.lt_succ_self i)
              (le_of_lt (ih _ _ _ _ _ _ h))
          · cases h
        · split at h
          · exact Nat.lt_of_lt_of_le (Nat.lt_succ_self i)
              (le_of_lt (ih _ _ _ _ _ _ h))
          · split at h
            · unfold decodeFinish at h
              split at h
              · cases h; simp
              · cases h
            · split at h
              · unfold decodeFinish at h
                split at h
                · cases h; simp
                · cases h
              · cases h

/-- A successful decode reports a positive length (at least the opcode
byte). -/
theorem decode_length_pos (code : InstructionBuf) (d : DecodedInstruction)
    (h : decode_x86_string_instruction code = some d) : 0 < d.length :=
  decodeLoop_length_lt code.arch code.code_buf_len code.code_buf 0
    false false false d h

/-! ### Theorems: concrete end-to-end runs -/

set_option maxRecDepth 10000 in
/-- Claim C5, scenario S1: `rep movsb` at `0x1000` with `CX=1000`,
`SI=0x8000`, `DI=0x9000`, no watchpoints or breakpoints and no target
states.  After the trial step the bounder computes 998 iterations, the
batched phase installs its temporary 1-byte watchpoint at
`0x9366 = 0x9000 + 998 - 128`, and the routine returns at IP `0x1000`
with `CX = 1`. -/
theorem claim_C5 :
    (okState (fast_forward_through_instruction envS1 2 1000 [] t0S1)).map
      (fun s => (s.regs.ip, s.regs.cx, s.bound_log, s.watch_log)) =
    some (0x1000, 1, [998], [(0x9366, 1)]) := by decide

/-- Counterexample to claim C6: with entry `CX = 2` the routine
soft-aborts on the zero-iteration-bound path, and the SIGTRAP debug
status produced by the mandatory trial single-step is still pending at
return — `consume_debug_status` was never called, contradicting the
claim that every return path consumes the debug status. -/
theorem claim_C6_counterexample :
    (okState (fast_forward_through_instruction envS1 2 100 [] t0C6)).map
      (fun s => (s.regs.ip, s.ds_singlestep, s.ds_watchpoint, s.resume_count)) =
    some (0x1000, true, false, 1) := by decide

/-- Counterexample to claim C2: when the batched phase's continue stops
with a spurious non-SIGTRAP signal, the routine asserts and aborts with
the temporary watchpoint at `0x9366` and the internal breakpoint at
`0x1002` still installed and the saved (empty) watchpoint set still
unrestored — the claim's "failures of the continue/wait operations
mid-batched-phase" exit path does not restore anything. -/
theorem claim_C2_counterexample :
    t0S1.watchpoints = [] ∧ t0S1.breakpoints = [] ∧
    t0S1.saved_watchpoints = [] ∧
    (abortState (fast_forward_through_instruction envC2 2 1000 [] t0S1)).map
      (fun s => (s.watchpoints, s.breakpoints, s.saved_watchpoints)) =
    some ([{ addr := 0x9366, num_bytes := 1, kind := WatchType.WATCH_READWRITE }],
          [(0x1002, TrapType.TRAP_BKPT_INTERNAL)], [[]]) := by
  refine ⟨rfl, rfl, rfl, by decide⟩

/-- A round whose avoid-set was already extended (`states_copy`
non-empty) never asks for another retry: the source asserts first. -/
theorem ffRound_retried (env : MachineEnv) (decoded : DecodedInstruction)
    (ip fuelC : Nat) (states : List Registers) (t : TraceeState)
    (x : List Registers × TraceeState) :
    ffRound env decoded ip fuelC states true t ≠ Except.ok (Sum.inr x) := by
  intro h
  simp only [ffRound] at h
  split at h
  · cases h
  · split at h
    · cases h
    · split at h
      · cases h
      · split at h
        · cases h
        · split at h
          · cases h
          · split at h
            · split at h
              · split at h
                · cases h
                · simp_all
              · cases h
            · cases h

/-- Two rounds of outer-loop fuel always suffice: any extra fuel leaves
the result unchanged, because a second ZF retry is cut off by the
assertion rather than consuming a third round. -/
theorem ffLoop_succ (env : MachineEnv) (decoded : DecodedInstruction)
    (ip fuelC n : Nat) (states : List Registers) (retried : Bool)
    (t : TraceeState) :
    ffLoop env decoded ip fuelC (n + 1) states retried t =
    (match ffRound env decoded ip fuelC states retried t with
     | Except.error e => Except.error e
     | Except.ok (Sum.inl r) => Except.ok r
     | Except.ok (Sum.inr next) =>
         ffLoop env decoded ip fuelC n next.1 true next.2) := rfl

theorem ffLoop_fuel_two (env : MachineEnv) (decoded : DecodedInstruction)
    (ip fuelC : Nat) (k : Nat) (states : List Registers) (t : TraceeState) :
    ffLoop env decoded ip fuelC (2 + k) states false t =
    ffLoop env decoded ip fuelC 2 states false t := by
  rw [show 2 + k = (1 + k) + 1 from by omega, ffLoop_succ,
    show (2 : Nat) = 1 + 1 from rfl, ffLoop_succ]
  cases hr : ffRound env decoded ip fuelC states false t with
  | error e => rfl
  | ok out =>
    cases out with
    | inl r => rfl
    | inr next =>
      show ffLoop env decoded ip fuelC (1 + k) next.1 true next.2 =
        ffLoop env decoded ip fuelC 1 next.1 true next.2
      rw [show 1 + k = k + 1 from by omega, ffLoop_succ,
        show (1 : Nat) = 0 + 1 from rfl, ffLoop_succ]
      cases hr2 : ffRound env decoded ip fuelC next.1 true next.2 with
      | error e => rfl
      | ok out2 =>
        cases out2 with
        | inl r => rfl
        | inr next' => exact absurd hr2 (ffRound_retried env decoded ip fuelC
            next.1 next.2 next')

/-- Claim C7: the ZF-early-exit retry happens at most once per
invocation — outer fuel beyond two rounds never changes the result —
and a run in which a second ZF exit does occur (the `envC7` machine,
whose REP condition fails at CPU times 2 and 3, straddling the retry's
register rewind) ends in an assertion-failure abort, stopped just past
the instruction with `CX = 3`, rather than in another retry. -/
theorem claim_C7 :
    (∀ (env : MachineEnv) (k fuelC : Nat) (states : List Registers)
       (t : TraceeState),
      fast_forward_through_instruction env (2 + k) fuelC states t =
      fast_forward_through_instruction env 2 fuelC states t) ∧
    (abortState (fast_forward_through_instruction envC7 5 100 [] t0C7)).map
      (fun s => (s.regs.ip, s.regs.cx)) = some (0x1002, 3) := by
  constructor
  · intro env k fuelC states t
    simp only [fast_forward_through_instruction]
    split_ifs <;> try rfl
    cases hdec : decode_x86_string_instruction
        (read_instruction env t.regs.ip) with
    | none => rfl
    | some decoded =>
        exact ffLoop_fuel_two env decoded t.regs.ip fuelC k states
          (resume_singlestep env t)
  · decide

/-! ### Theorems: frame and return-contract invariants -/

theorem sameTables_refl (t : TraceeState) : sameTables t t :=
  ⟨rfl, rfl, rfl⟩

theorem sameTables_trans {a b c : TraceeState} (h1 : sameTables a b)
    (h2 : sameTables b c) : sameTables a c :=
  ⟨h1.1.trans h2.1, h1.2.1.trans h2.2.1, h1.2.2.trans h2.2.2⟩

theorem removeFirstBp_cons_self (l : List (Nat × TrapType)) (a : Nat)
    (ty : TrapType) : removeFirstBp ((a, ty) :: l) a ty = l := by
  simp [removeFirstBp]

theorem getBpType_cons (b : Nat) (ty : TrapType)
    (bps : List (Nat × TrapType)) (a : Nat) :
    getBpType ((b, ty) :: bps) a = if b = a then ty else getBpType bps a := rfl

/-- One hardware iteration of the string instruction keeps IP at the
instruction or moves it just past it, never increases `CX`, and keeps
the direction flag. -/
theorem execString_regs (env : MachineEnv) (d : DecodedInstruction)
    (op : Nat) (wps : List WatchConfig) (time : Nat) (r : Registers) :
    ((execString env d op wps time r).1.ip = r.ip ∨
     (execString env d op wps time r).1.ip = r.ip + d.length) ∧
    (execString env d op wps time r).1.cx ≤ r.cx := by
  unfold execString
  split
  · exact ⟨Or.inr rfl, le_refl _⟩
  · dsimp only
    constructor
    · split
      · exact Or.inr rfl
      · exact Or.inl rfl
    · omega

/-- On an x86 tracee whose bytes at IP decode as a string instruction,
the machine's instruction execution is the string semantics. -/
theorem exec_insn_string (env : MachineEnv) (wps : List WatchConfig)
    (time : Nat) (r : Registers) (decoded : DecodedInstruction)
    (harch : env.arch = SupportedArch.x86 ∨ env.arch = SupportedArch.x86_64)
    (hdec : decode_x86_string_instruction (read_instruction env r.ip) =
      some decoded) :
    exec_insn env wps time r =
    execString env decoded (opcodeByte env r.ip decoded) wps time r := by
  unfold exec_insn
  rw [if_pos harch, hdec]

/-- A single-step resume leaves the breakpoint and watchpoint tables,
the logs and the time-independent fields alone. -/
theorem resume_singlestep_frame (env : MachineEnv) (t : TraceeState) :
    sameTables (resume_singlestep env t) t ∧
    (resume_singlestep env t).resume_count = t.resume_count + 1 := by
  unfold resume_singlestep
  split <;> exact ⟨⟨rfl, rfl, rfl⟩, rfl⟩

/-- What a single-step resume can do to the registers and status: a
spurious interrupt leaves everything but the signal alone; a real step
executes one instruction, sets the single-step status bit and ORs in
the watchpoint bit. -/
theorem resume_singlestep_cases (env : MachineEnv) (t : TraceeState) :
    ((resume_singlestep env t).regs = t.regs ∧
     (resume_singlestep env t).ds_watchpoint = t.ds_watchpoint ∧
     (resume_singlestep env t).ds_singlestep = t.ds_singlestep) ∨
    ((resume_singlestep env t).regs =
       (exec_insn env t.watchpoints t.time t.regs).1 ∧
     (resume_singlestep env t).ds_watchpoint =
       (t.ds_watchpoint || (exec_insn env t.watchpoints t.time t.regs).2) ∧
     (resume_singlestep env t).ds_singlestep = true) := by
  unfold resume_singlestep
  split
  · exact Or.inl ⟨rfl, rfl, rfl⟩
  · exact Or.inr ⟨rfl, rfl, rfl⟩

/-- Registers after a single-step resume from a state stopped at the
string instruction: IP stays or moves just past it, `CX` does not
increase. -/
theorem resume_singlestep_regs (env : MachineEnv) (t : TraceeState)
    (decoded : DecodedInstruction)
    (harch : env.arch = SupportedArch.x86 ∨ env.arch = SupportedArch.x86_64)
    (hdec : decode_x86_string_instruction (read_instruction env t.regs.ip) =
      some decoded) :
    ((resume_singlestep env t).regs.ip = t.regs.ip ∨
     (resume_singlestep env t).regs.ip = t.regs.ip + decoded.length) ∧
    (resume_singlestep env t).regs.cx ≤ t.regs.cx := by
  rcases resume_singlestep_cases env t with ⟨hr, _, _⟩ | ⟨hr, _, _⟩
  · rw [hr]
    exact ⟨Or.inl rfl, le_refl _⟩
  · rw [hr, exec_insn_string env t.watchpoints t.time t.regs decoded harch hdec]
    exact execString_regs env decoded _ t.watchpoints t.time t.regs

/-- The tail phase: invariants of every normally returning run.
Entering at the instruction or just past it, it exits at the
instruction or just past it with `CX` not increased and the tables
untouched; and either no step was taken (the state is returned as is)
or at least one resume happened and the last debug status was
consumed. -/
theorem tail_loop_spec (env : MachineEnv) (decoded : DecodedInstruction)
    (ip : Nat)
    (harch : env.arch = SupportedArch.x86 ∨ env.arch = SupportedArch.x86_64)
    (hdec : decode_x86_string_instruction (read_instruction env ip) =
      some decoded) :
    ∀ (its : Nat) (t res : TraceeState),
      tail_loop env ip its t = Except.ok res →
      (t.regs.ip = ip ∨ t.regs.ip = ip + decoded.length) →
      sameTables res t ∧
      (res.regs.ip = ip ∨ res.regs.ip = ip + decoded.length) ∧
      res.regs.cx ≤ t.regs.cx ∧
      ((res = t ∧ (its = 0 ∨ t.regs.ip ≠ ip)) ∨
       (t.resume_count < res.resume_count ∧ res.ds_watchpoint = false ∧
        res.ds_singlestep = false)) := by
  intro its
  induction its with
  | zero =>
    intro t res h hip
    cases h
    exact ⟨sameTables_refl t, hip, le_refl _, Or.inl ⟨rfl, Or.inl rfl⟩⟩
  | succ its ih =>
    intro t res h hip
    simp only [tail_loop] at h
    split at h
    · rename_i hipne0
      cases h
      exact ⟨sameTables_refl t, hip, le_refl _, Or.inl ⟨rfl, Or.inr hipne0⟩⟩
    · rename_i hipne
      have hipt : t.regs.ip = ip := not_not.mp hipne
      split at h
      · cases h
      · simp only [consume_debug_status] at h
        split at h
        · cases h
        · have hdec' : decode_x86_string_instruction
              (read_instruction env t.regs.ip) = some decoded := by
            rw [hipt]
            exact hdec
          have hregs := resume_singlestep_regs env t decoded harch hdec'
          have hframe := resume_singlestep_frame env t
          have hih := ih _ res h (by
            simp only []
            rw [← hipt]
            exact hregs.1)
          obtain ⟨htab, hipres, hcx, hlast⟩ := hih
          refine ⟨sameTables_trans htab hframe.1, hipres, ?_, Or.inr ?_⟩
          · exact le_trans hcx hregs.2
          · rcases hlast with hlast | hlast
            · rw [hlast.1]
              refine ⟨?_, rfl, rfl⟩
              show t.resume_count < (resume_singlestep env t).resume_count
              rw [hframe.2]
              omega
            · refine ⟨?_, hlast.2.1, hlast.2.2⟩
              have hlt : (resume_singlestep env t).resume_count <
                  res.resume_count := hlast.1
              rw [hframe.2] at hlt
              omega

/-- The running phase of a batched continue: started at the string
instruction with clean watchpoint status, no breakpoint at the
instruction and a breakpoint just past it, every stop is a SIGTRAP
with the tables untouched and `CX` not increased, and is either a
watchpoint stop at or just past the instruction, or a clean-status
breakpoint stop one byte past the internal breakpoint. -/
theorem cont_run_spec (env : MachineEnv) (decoded : DecodedInstruction)
    (ip : Nat)
    (harch : env.arch = SupportedArch.x86 ∨ env.arch = SupportedArch.x86_64)
    (hdec : decode_x86_string_instruction (read_instruction env ip) =
      some decoded) :
    ∀ (fuel : Nat) (t res : TraceeState),
      cont_run env fuel t = some res →
      (t.regs.ip = ip ∨ t.regs.ip = ip + decoded.length) →
      t.ds_watchpoint = false →
      getBpType t.breakpoints ip = TrapType.TRAP_NONE →
      getBpType t.breakpoints (ip + decoded.length) ≠ TrapType.TRAP_NONE →
      sameTables res t ∧ res.regs.cx ≤ t.regs.cx ∧
      res.ds_singlestep = t.ds_singlestep ∧
      res.pending_sig = 5 ∧
      res.resume_count = t.resume_count ∧
      ((res.ds_watchpoint = true ∧
        (res.regs.ip = ip ∨ res.regs.ip = ip + decoded.length)) ∨
       (res.ds_watchpoint = false ∧
        res.regs.ip = ip + decoded.length + 1)) := by
  intro fuel
  induction fuel with
  | zero => intro t res h; cases h
  | succ fuel ih =>
    intro t res h hip hdsw hbp0 hbpL
    simp only [cont_run] at h
    split at h
    · rename_i hbp
      rcases hip with hip | hip
      · rw [hip] at hbp
        exact absurd hbp0 hbp
      · cases h
        refine ⟨sameTables_refl _, le_refl _, rfl, rfl, rfl, Or.inr ⟨hdsw, ?_⟩⟩
        show t.regs.ip + 1 = ip + decoded.length + 1
        rw [hip]
    · rename_i hnbp
      have hipt : t.regs.ip = ip := by
        rcases hip with hip | hip
        · exact hip
        · rw [hip] at hnbp
          exact absurd (fun hc => hnbp hc) (fun hc => hc hbpL)
      have hdec' : decode_x86_string_instruction
          (read_instruction env t.regs.ip) = some decoded := by
        rw [hipt]; exact hdec
      have hstep : exec_insn env t.watchpoints t.time t.regs =
          execString env decoded (opcodeByte env t.regs.ip decoded)
            t.watchpoints t.time t.regs :=
        exec_insn_string env t.watchpoints t.time t.regs decoded harch hdec'
      have hregs := execString_regs env decoded
        (opcodeByte env t.regs.ip decoded) t.watchpoints t.time t.regs
      rw [← hstep] at hregs
      split at h
      · cases h
        refine ⟨sameTables_refl _, hregs.2, rfl, rfl, rfl, Or.inl ⟨rfl, ?_⟩⟩
        show (exec_insn env t.watchpoints t.time t.regs).1.ip = ip ∨ _
        rw [← hipt]
        exact hregs.1
      · have hih := ih _ res h (by rw [← hipt]; exact hregs.1) hdsw hbp0 hbpL
        obtain ⟨htab, hcx, hss, hsig, hcnt, hout⟩ := hih
        exact ⟨htab, le_trans hcx hregs.2, hss, hsig, hcnt, hout⟩

/-- The batched phase: on every normally returning run the temporary
watchpoint and breakpoint are gone again and the saved watchpoint set
is back in place, IP is at the instruction or just past it, `CX` has
not increased and the watchpoint status is clean; either the phase was
skipped entirely (iterations and state unchanged) or its continue ran
and its debug status was consumed. -/
theorem batched_phase_spec (env : MachineEnv) (decoded : DecodedInstruction)
    (ip fuelC cur_cx iterations : Nat)
    (harch : env.arch = SupportedArch.x86 ∨ env.arch = SupportedArch.x86_64)
    (hdec : decode_x86_string_instruction (read_instruction env ip) =
      some decoded)
    (hlen : 0 < decoded.length) :
    ∀ (t : TraceeState) (out : Nat × TraceeState),
      batched_phase env decoded ip fuelC cur_cx iterations t = Except.ok out →
      t.regs.ip = ip →
      t.ds_watchpoint = false →
      getBpType t.breakpoints ip = TrapType.TRAP_NONE →
      sameTables out.2 t ∧
      (out.2.regs.ip = ip ∨ out.2.regs.ip = ip + decoded.length) ∧
      out.2.regs.cx ≤ t.regs.cx ∧
      out.2.ds_watchpoint = false ∧
      (out = (iterations, t) ∨
       (t.resume_count < out.2.resume_count ∧
        out.2.ds_singlestep = false)) := by
  intro t out h hip hdsw hbp0
  simp only [batched_phase] at h
  split at h
  · -- batched branch taken
    split at h
    · cases h
    · rename_i tc heq
      split at h
      · cases h
      · rename_i hsig
        unfold resume_cont at heq
        split at heq
        · -- spurious interrupt: the fixup assertion fails, no ok result
          rename_i sig hintr
          cases heq
          simp only [consume_debug_status, add_breakpoint, add_watchpoint,
            remove_all_watchpoints, save_watchpoints] at h
          rw [hdsw] at h
          simp only [Bool.false_eq_true, if_false] at h
          split at h
          · cases h
          · rename_i tf heq2
            split at heq2
            · rename_i hcond
              have h1 : t.regs.ip = ip + decoded.length + 1 := hcond.1
              omega
            · cases heq2
        · -- genuine continue
          have hbpT4 : getBpType
              ((ip + decoded.length, TrapType.TRAP_BKPT_INTERNAL) ::
                t.breakpoints) ip = TrapType.TRAP_NONE := by
            rw [getBpType_cons, if_neg (by omega)]
            exact hbp0
          have hbpT4L : getBpType
              ((ip + decoded.length, TrapType.TRAP_BKPT_INTERNAL) ::
                t.breakpoints) (ip + decoded.length) ≠
              TrapType.TRAP_NONE := by
            rw [getBpType_cons, if_pos rfl]
            intro hc
            cases hc
          have hspec := cont_run_spec env decoded ip harch hdec fuelC _ tc heq
            (Or.inl hip) hdsw hbpT4 hbpT4L
          obtain ⟨htab, hcx, hss, hsig5, hcnt, hout⟩ := hspec
          have htcb : tc.breakpoints =
              (ip + decoded.length, TrapType.TRAP_BKPT_INTERNAL) ::
                t.breakpoints := htab.1
          have htcs : tc.saved_watchpoints =
              t.watchpoints :: t.saved_watchpoints := htab.2.2
          simp only [consume_debug_status] at h
          split at h
          · -- match arm: fixup errored
            cases h
          · rename_i tf heq2
            cases h
            split at heq2
            · -- watchpoint fired: no IP fixup
              rename_i hfw
              cases heq2
              have hipres : tc.regs.ip = ip ∨
                  tc.regs.ip = ip + decoded.length := by
                rcases hout with hout | hout
                · exact hout.2
                · rw [hfw] at hout
                  cases hout.1
              refine ⟨⟨?_, ?_, ?_⟩, hipres, hcx, rfl, Or.inr ⟨?_, rfl⟩⟩
              · show removeFirstBp tc.breakpoints (ip + decoded.length)
                  TrapType.TRAP_BKPT_INTERNAL = t.breakpoints
                rw [htcb, removeFirstBp_cons_self]
              · show tc.saved_watchpoints.headD [] = t.watchpoints
                rw [htcs]
                rfl
              · show tc.saved_watchpoints.tail = t.saved_watchpoints
                rw [htcs]
                rfl
              · show t.resume_count < tc.resume_count
                have hc2 : tc.resume_count = t.resume_count + 1 := hcnt
                omega
            · split at heq2
              · -- ZF exit hit the breakpoint: IP rewound past the insn
                rename_i hfix
                cases heq2
                refine ⟨⟨?_, ?_, ?_⟩, Or.inr rfl, hcx, rfl, Or.inr ⟨?_, rfl⟩⟩
                · show removeFirstBp tc.breakpoints (ip + decoded.length)
                    TrapType.TRAP_BKPT_INTERNAL = t.breakpoints
                  rw [htcb, removeFirstBp_cons_self]
                · show tc.saved_watchpoints.headD [] = t.watchpoints
                  rw [htcs]
                  rfl
                · show tc.saved_watchpoints.tail = t.saved_watchpoints
                  rw [htcs]
                  rfl
                · show t.resume_count < tc.resume_count
                  have hc2 : tc.resume_count = t.resume_count + 1 := hcnt
                  omega
              · cases heq2
  · -- phase skipped
    cases h
    exact ⟨sameTables_refl _, Or.inl hip, le_refl _, hdsw, Or.inl rfl⟩

/-- One round of the driver's loop.  A return (`Sum.inl`) leaves the
tables as they were, IP at the instruction with `CX` not increased or
just past the instruction, and either the state untouched (a soft
abort before any resume) or with the debug status consumed.  A ZF
retry (`Sum.inr`) hands back a state rewound to the round's entry
registers with tables intact, clean status and a strictly larger
resume count. -/
theorem ffRound_spec (env : MachineEnv) (decoded : DecodedInstruction)
    (ip fuelC : Nat)
    (harch : env.arch = SupportedArch.x86 ∨ env.arch = SupportedArch.x86_64)
    (hdec : decode_x86_string_instruction (read_instruction env ip) =
      some decoded)
    (hlen : 0 < decoded.length)
    (states : List Registers) (retried : Bool) (t : TraceeState)
    (hip : t.regs.ip = ip) (hdsw : t.ds_watchpoint = false)
    (hbp0 : getBpType t.breakpoints ip = TrapType.TRAP_NONE) :
    (∀ res, ffRound env decoded ip fuelC states retried t =
        Except.ok (Sum.inl res) →
      sameTables res t ∧
      ((res.regs.ip = ip ∧ res.regs.cx ≤ t.regs.cx) ∨
        res.regs.ip = ip + decoded.length) ∧
      (res = t ∨
       (t.resume_count < res.resume_count ∧ res.ds_watchpoint = false ∧
        res.ds_singlestep = false))) ∧
    (∀ next, ffRound env decoded ip fuelC states retried t =
        Except.ok (Sum.inr next) →
      sameTables next.2 t ∧ next.2.regs.ip = ip ∧
      next.2.regs.cx ≤ t.regs.cx ∧ next.2.ds_watchpoint = false ∧
      t.resume_count < next.2.resume_count ∧
      next.2.ds_singlestep = false) := by
  constructor
  · intro res h
    simp only [ffRound] at h
    split at h
    · cases h
      exact ⟨sameTables_refl _, Or.inl ⟨hip, le_refl _⟩, Or.inl rfl⟩
    · split at h
      · cases h
      · rename_i iterations hbw
        split at h
        · cases h
          exact ⟨sameTables_refl _, Or.inl ⟨hip, le_refl _⟩, Or.inl rfl⟩
        · rename_i hits
          split at h
          · cases h
          · rename_i out hbatch
            split at h
            · cases h
            · rename_i tres htail
              have hb := batched_phase_spec env decoded ip fuelC t.regs.cx
                iterations harch hdec hlen _ out hbatch hip hdsw hbp0
              obtain ⟨htabB, hipB, hcxB, hdswB, hlastB⟩ := hb
              have ht := tail_loop_spec env decoded ip harch hdec out.1
                out.2 tres htail hipB
              obtain ⟨htabT, hipT, hcxT, hlastT⟩ := ht
              have htabBT : sameTables tres t :=
                sameTables_trans htabT (sameTables_trans htabB ⟨rfl, rfl, rfl⟩)
              split at h
              · -- IP left the instruction: retry or assert, never inl
                split at h
                · split at h
                  · cases h
                  · cases h
                · cases h
              · rename_i hipne
                cases h
                have htresip : res.regs.ip = ip := not_not.mp hipne
                refine ⟨htabBT, Or.inl ⟨htresip, le_trans hcxT hcxB⟩, Or.inr ?_⟩
                rcases hlastT with hlastT | hlastT
                · -- tail took no step: the batched phase must have run
                  rcases hlastB with hlastB | hlastB
                  · -- both skipped: impossible, iterations > 0 at the insn
                    exfalso
                    rw [hlastB] at hlastT
                    rcases hlastT.2 with hz | hz
                    · exact hits hz
                    · exact hz hip
                  · rw [hlastT.1]
                    exact ⟨hlastB.1, hdswB, hlastB.2⟩
                · rcases hlastB with hlastB | hlastB
                  · rw [hlastB] at hlastT
                    exact ⟨hlastT.1, hlastT.2.1, hlastT.2.2⟩
                  · exact ⟨lt_trans hlastB.1 hlastT.1, hlastT.2.1, hlastT.2.2⟩
  · intro next h
    simp only [ffRound] at h
    split at h
    · cases h
    · split at h
      · cases h
      · rename_i iterations hbw
        split at h
        · cases h
        · rename_i hits
          split at h
          · cases h
          · rename_i out hbatch
            split at h
            · cases h
            · rename_i tres htail
              have hb := batched_phase_spec env decoded ip fuelC t.regs.cx
                iterations harch hdec hlen _ out hbatch hip hdsw hbp0
              obtain ⟨htabB, hipB, hcxB, hdswB, hlastB⟩ := hb
              have ht := tail_loop_spec env decoded ip harch hdec out.1
                out.2 tres htail hipB
              obtain ⟨htabT, hipT, hcxT, hlastT⟩ := ht
              have htabBT : sameTables tres t :=
                sameTables_trans htabT (sameTables_trans htabB ⟨rfl, rfl, rfl⟩)
              split at h
              · rename_i hipne
                split at h
                · rename_i hfix
                  split at h
                  · cases h
                  · cases h
                    refine ⟨htabBT, hip, le_refl _, ?_⟩
                    rcases hlastT with hlastT | hlastT
                    · rcases hlastB with hlastB | hlastB
                      · exfalso
                        rw [hlastB] at hlastT
                        apply hipne
                        rw [hlastT.1]
                        show t.regs.ip = ip
                        exact hip
                      · rw [hlastT.1]
                        exact ⟨hdswB, hlastB.1, hlastB.2⟩
                    · refine ⟨hlastT.2.1, ?_, hlastT.2.2⟩
                      rcases hlastB with hlastB | hlastB
                      · rw [hlastB] at hlastT
                        exact hlastT.1
                      · exact lt_trans hlastB.1 hlastT.1
                · cases h
              · cases h

/-- The driver's retry loop preserves the tables, returns at the
instruction with `CX` not increased or just past it, and either does
nothing at all or consumes the status of its last resume. -/
theorem ffLoop_spec (env : MachineEnv) (decoded : DecodedInstruction)
    (ip fuelC : Nat)
    (harch : env.arch = SupportedArch.x86 ∨ env.arch = SupportedArch.x86_64)
    (hdec : decode_x86_string_instruction (read_instruction env ip) =
      some decoded)
    (hlen : 0 < decoded.length) :
    ∀ (fuelO : Nat) (states : List Registers) (retried : Bool)
      (t res : TraceeState),
      ffLoop env decoded ip fuelC fuelO states retried t = Except.ok res →
      t.regs.ip = ip → t.ds_watchpoint = false →
      getBpType t.breakpoints ip = TrapType.TRAP_NONE →
      sameTables res t ∧
      ((res.regs.ip = ip ∧ res.regs.cx ≤ t.regs.cx) ∨
        res.regs.ip = ip + decoded.length) ∧
      (res = t ∨
       (t.resume_count < res.resume_count ∧ res.ds_watchpoint = false ∧
        res.ds_singlestep = false)) := by
  intro fuelO
  induction fuelO with
  | zero =>
    intro states retried t res h _ _ _
    cases h
  | succ fuelO ih =>
    intro states retried t res h hip hdsw hbp0
    rw [ffLoop_succ] at h
    have hr := ffRound_spec env decoded ip fuelC harch hdec hlen states
      retried t hip hdsw hbp0
    split at h
    · cases h
    · rename_i r heq
      cases h
      exact hr.1 _ heq
    · rename_i next heq
      have hnext := hr.2 next heq
      obtain ⟨htab2, hip2, hcx2, hdsw2, hcnt2, hss2⟩ := hnext
      have hbp2 : getBpType next.2.breakpoints ip = TrapType.TRAP_NONE := by
        rw [htab2.1]
        exact hbp0
      have hl := ih next.1 true next.2 res h hip2 hdsw2 hbp2
      obtain ⟨htab3, hipcx3, hlast3⟩ := hl
      refine ⟨sameTables_trans htab3 htab2, ?_, Or.inr ?_⟩
      · rcases hipcx3 with ⟨h1, h2⟩ | h1
        · exact Or.inl ⟨h1, le_trans h2 hcx2⟩
        · exact Or.inr h1
      · rcases hlast3 with hlast3 | hlast3
        · rw [hlast3]
          exact ⟨hcnt2, hdsw2, hss2⟩
        · exact ⟨lt_trans hcnt2 hlast3.1, hlast3.2.1, hlast3.2.2⟩

/-- Claim C1 (return contract): whenever the routine is invoked on a
decodable string instruction on an x86 tracee and returns, the final
IP is the entry IP with `CX` not increased, or exactly the entry IP
plus the decoded length. -/
theorem claim_C1 (env : MachineEnv) (fuelO fuelC : Nat)
    (states : List Registers) (t0 res : TraceeState)
    (decoded : DecodedInstruction)
    (harch : env.arch = SupportedArch.x86 ∨ env.arch = SupportedArch.x86_64)
    (hdec : decode_x86_string_instruction (read_instruction env t0.regs.ip) =
      some decoded)
    (hrun : fast_forward_through_instruction env fuelO fuelC states t0 =
      Except.ok res) :
    (res.regs.ip = t0.regs.ip ∧ res.regs.cx ≤ t0.regs.cx) ∨
    res.regs.ip = t0.regs.ip + decoded.length := by
  have hregs := resume_singlestep_regs env t0 decoded harch hdec
  simp only [fast_forward_through_instruction] at hrun
  by_cases h1 : (resume_singlestep env t0).pending_sig ≠ SIGTRAP
  · rw [if_pos h1] at hrun
    cases hrun
  · rw [if_neg h1] at hrun
    by_cases h2 : (resume_singlestep env t0).regs.ip ≠ t0.regs.ip
    · rw [if_pos h2] at hrun
      cases hrun
      rcases hregs.1 with hh | hh
      · exact absurd hh h2
      · exact Or.inr hh
    · rw [if_neg h2] at hrun
      have hipeq : (resume_singlestep env t0).regs.ip = t0.regs.ip :=
        not_not.mp h2
      by_cases h3 : getBpType (resume_singlestep env t0).breakpoints
          t0.regs.ip ≠ TrapType.TRAP_NONE
      · rw [if_pos h3] at hrun
        cases hrun
        exact Or.inl ⟨hipeq, hregs.2⟩
      · rw [if_neg h3] at hrun
        by_cases h4 : (resume_singlestep env t0).ds_watchpoint = true
        · rw [if_pos h4] at hrun
          cases hrun
          exact Or.inl ⟨hipeq, hregs.2⟩
        · rw [if_neg h4] at hrun
          by_cases h5 : (states.any fun s =>
              s.regMatches (resume_singlestep env t0).regs) = true
          · rw [if_pos h5] at hrun
            cases hrun
            exact Or.inl ⟨hipeq, hregs.2⟩
          · rw [if_neg h5] at hrun
            rw [if_neg (not_not_intro harch), hdec] at hrun
            have hl := ffLoop_spec env decoded t0.regs.ip fuelC harch
              hdec (decode_length_pos _ _ hdec) fuelO states false
              (resume_singlestep env t0) res hrun hipeq
              (by rw [Bool.not_eq_true] at h4; exact h4)
              (not_not.mp h3)
            rcases hl.2.1 with ⟨ha, hb⟩ | ha
            · exact Or.inl ⟨ha, le_trans hb hregs.2⟩
            · exact Or.inr ha

/-- Claim C2, amended (frame property of normal returns): whenever the
routine returns, the breakpoint table, the watchpoint table and the
saved-watchpoint stack are exactly as at entry — the temporary
watchpoint and internal breakpoint never survive a normal return. -/
theorem claim_C2 (env : MachineEnv) (fuelO fuelC : Nat)
    (states : List Registers) (t0 res : TraceeState)
    (hrun : fast_forward_through_instruction env fuelO fuelC states t0 =
      Except.ok res) :
    res.breakpoints = t0.breakpoints ∧
    res.watchpoints = t0.watchpoints ∧
    res.saved_watchpoints = t0.saved_watchpoints := by
  have hframe := resume_singlestep_frame env t0
  simp only [fast_forward_through_instruction] at hrun
  split at hrun
  · cases hrun
  · split at hrun
    · cases hrun
      exact hframe.1
    · rename_i hne
      have hipeq : (resume_singlestep env t0).regs.ip = t0.regs.ip :=
        not_not.mp hne
      split at hrun
      · cases hrun
        exact hframe.1
      · rename_i hbp
        split at hrun
        · cases hrun
          exact hframe.1
        · rename_i hdsw
          split at hrun
          · cases hrun
            exact hframe.1
          · split at hrun
            · cases hrun
              exact hframe.1
            · rename_i harch2
              have harch : env.arch = SupportedArch.x86 ∨
                  env.arch = SupportedArch.x86_64 := not_not.mp harch2
              split at hrun
              · cases hrun
                exact hframe.1
              · rename_i dec2 hdec2
                have hl := ffLoop_spec env dec2 t0.regs.ip fuelC harch hdec2
                  (decode_length_pos _ _ hdec2) fuelO states false
                  (resume_singlestep env t0) res hrun hipeq
                  (by rw [Bool.not_eq_true] at hdsw; exact hdsw)
                  (not_not.mp hbp)
                exact sameTables_trans hl.1 hframe.1

/-- Claim C6, amended (debug-status consumption): a return that
performed at least one resume beyond the mandatory trial single-step
has its debug status fully consumed.  (The soft-abort paths right
after the trial step return with the trial step's status still
pending, as the counterexample shows.) -/
theorem claim_C6 (env : MachineEnv) (fuelO fuelC : Nat)
    (states : List Registers) (t0 res : TraceeState)
    (hrun : fast_forward_through_instruction env fuelO fuelC states t0 =
      Except.ok res)
    (hcnt : t0.resume_count + 2 ≤ res.resume_count) :
    res.ds_watchpoint = false ∧ res.ds_singlestep = false := by
  have hframe := resume_singlestep_frame env t0
  simp only [fast_forward_through_instruction] at hrun
  split at hrun
  · cases hrun
  · split at hrun
    · cases hrun
      rw [hframe.2] at hcnt
      omega
    · rename_i hne
      have hipeq : (resume_singlestep env t0).regs.ip = t0.regs.ip :=
        not_not.mp hne
      split at hrun
      · cases hrun
        rw [hframe.2] at hcnt
        omega
      · rename_i hbp
        split at hrun
        · cases hrun
          rw [hframe.2] at hcnt
          omega
        · rename_i hdsw
          split at hrun
          · cases hrun
            rw [hframe.2] at hcnt
            omega
          · split at hrun
            · cases hrun
              rw [hframe.2] at hcnt
              omega
            · rename_i harch2
              have harch : env.arch = SupportedArch.x86 ∨
                  env.arch = SupportedArch.x86_64 := not_not.mp harch2
              split at hrun
              · cases hrun
                rw [hframe.2] at hcnt
                omega
              · rename_i dec2 hdec2
                have hl := ffLoop_spec env dec2 t0.regs.ip fuelC harch hdec2
                  (decode_length_pos _ _ hdec2) fuelO states false
                  (resume_singlestep env t0) res hrun hipeq
                  (by rw [Bool.not_eq_true] at hdsw; exact hdsw)
                  (not_not.mp hbp)
                rcases hl.2.2 with hlast | hlast
                · rw [hlast] at hcnt
                  rw [hframe.2] at hcnt
                  omega
                · exact ⟨hlast.2.1, hlast.2.2⟩

/-- Witness for C1: the `CX=3` `rep movsb` run returns at the entry IP
with `CX` dropped from 3 to 1. -/
theorem claim_C1_witness :
    (envS1.arch = SupportedArch.x86 ∨ envS1.arch = SupportedArch.x86_64) ∧
    decode_x86_string_instruction (read_instruction envS1 t0W.regs.ip) =
      some decW ∧
    ((resW.regs.ip = t0W.regs.ip ∧ resW.regs.cx ≤ t0W.regs.cx) ∨
      resW.regs.ip = t0W.regs.ip + decW.length) :=
  ⟨Or.inr rfl, by decide,
   claim_C1 envS1 2 100 [] t0W resW decW (Or.inr rfl) (by decide) (by rfl)⟩

/-- Witness for C2's amended theorem: the `CX=2` soft-abort run leaves
the (empty) tables exactly as at entry. -/
theorem claim_C2_witness :
    resC6.breakpoints = t0C6.breakpoints ∧
    resC6.watchpoints = t0C6.watchpoints ∧
    resC6.saved_watchpoints = t0C6.saved_watchpoints :=
  claim_C2 envS1 2 100 [] t0C6 resC6 (by rfl)

/-- Witness for C6's amended theorem: the `CX=3` run resumes twice
(trial step plus one tail step) and returns with the debug status
consumed. -/
theorem claim_C6_witness :
    t0W.resume_count + 2 ≤ resW.resume_count ∧
    (resW.ds_watchpoint = false ∧ resW.ds_singlestep = false) :=
  ⟨by decide, claim_C6 envS1 2 100 [] t0W resW (by rfl) (by decide)⟩

end FastForward
